import Mathlib

/-!
# Verification of the `microservice-service-registry` Registry Engine

Shallow embedding of the `ServiceRegistry` class (the variant embedded in the
repository with `init`/`dispose` lifecycle; the event-listener bodies are
identical to `src/src/service-registry2.ts`).  JavaScript `Map`s are modelled
as insertion-ordered association lists (`List (String × α)`) and `Set`s as
insertion-ordered duplicate-free lists; `Map.set`, `Map.delete`, `Set.add`,
`Set.delete` are translated operation by operation.
-/

namespace SvcReg

/-- The `Instance` interface of `service-registry2.ts`:
id, serviceType, host, port, created, lastUpdated, healthy, meta. -/
structure Instance where
  id : String
  serviceType : String
  host : String
  port : String
  created : Nat
  lastUpdated : Nat
  healthy : Bool
  meta : List (String × String)
deriving DecidableEq, Repr

/-- `InstanceRegisterRequest = Pick<Instance, "serviceType" | "host" | "port" | "meta">`. -/
structure RegisterRequest where
  serviceType : String
  host : String
  port : String
  meta : List (String × String)
deriving DecidableEq, Repr

/-! ## JavaScript `Map` / `Set` semantics over association lists -/

/-- `Map.get k`: first entry with key `k` (a JS `Map` has unique keys, so
"first" is exact whenever keys are duplicate-free). -/
def listGet {α : Type} : List (String × α) → String → Option α
  | [], _ => none
  | (k', v) :: rest, k => if k' = k then some v else listGet rest k

/-- `Map.set k v`: replace the value at `k` in place, else append. -/
def listSet {α : Type} : List (String × α) → String → α → List (String × α)
  | [], k, v => [(k, v)]
  | (k', v') :: rest, k, v =>
    if k' = k then (k, v) :: rest else (k', v') :: listSet rest k v

/-- `Map.delete k`: remove the entry with key `k`. -/
def listDelete {α : Type} : List (String × α) → String → List (String × α)
  | [], _ => []
  | (k', v') :: rest, k => if k' = k then rest else (k', v') :: listDelete rest k

/-- Keys of a map, in insertion order. -/
def keysOf {α : Type} (m : List (String × α)) : List String := m.map (·.1)

/-- `Set.add x`: no-op if present, else append. -/
def setAdd (s : List String) (x : String) : List String :=
  if x ∈ s then s else s ++ [x]

/-- `serviceMap.get(t)?.f(...)` / `serviceMap.get(t)!.f(...)` after a `has`
check: update the set stored at key `t`, no-op when the key is absent. -/
def smUpdate : List (String × List String) → String → (List String → List String) →
    List (String × List String)
  | [], _, _ => []
  | (t', ids) :: rest, t, f =>
    if t' = t then (t', f ids) :: rest else (t', ids) :: smUpdate rest t f

/-- `if (!serviceMap.has(t)) serviceMap.set(t, new Set())`. -/
def smEnsure (sm : List (String × List String)) (t : String) :
    List (String × List String) :=
  if (listGet sm t).isSome then sm else sm ++ [(t, [])]

/-! ## Registry state and the four event-listener bodies -/

/-- The two coupled indexes owned by `ServiceRegistry`:
`serviceMap : Map<string, Set<string>>` and `instanceMap : Map<string, Instance>`. -/
structure RegistryState where
  serviceMap : List (String × List String)
  instanceMap : List (String × Instance)
deriving DecidableEq, Repr

def emptyState : RegistryState := ⟨[], []⟩

/-- Listener for `instanceRegistered`: ensure the type key exists, add the id
to the type's set, and `instanceMap.set(instance.id, instance)`. -/
def onInstanceRegistered (s : RegistryState) (inst : Instance) : RegistryState :=
  { serviceMap := smUpdate (smEnsure s.serviceMap inst.serviceType)
      inst.serviceType (fun ids => setAdd ids inst.id),
    instanceMap := listSet s.instanceMap inst.id inst }

/-- Listener for `instanceRemoved`: `serviceMap.get(type)?.delete(id)` and
`instanceMap.delete(id)`. -/
def onInstanceRemoved (s : RegistryState) (inst : Instance) : RegistryState :=
  { serviceMap := smUpdate s.serviceMap inst.serviceType (fun ids => ids.erase inst.id),
    instanceMap := listDelete s.instanceMap inst.id }

/-- Listener for `healthCheckFailed`: guard `if (!instance.healthy) return`,
then delete the id from the type's set, flip `healthy` to `false` on the
payload object, and `instanceMap.set(instance.id, instance)`. -/
def onHealthCheckFailed (s : RegistryState) (inst : Instance) : RegistryState :=
  if inst.healthy = false then s
  else
    { serviceMap := smUpdate s.serviceMap inst.serviceType (fun ids => ids.erase inst.id),
      instanceMap := listSet s.instanceMap inst.id { inst with healthy := false } }

/-- Listener for `healthCheckPassed`: guard `if (instance.healthy) return`,
then `serviceMap.get(type)?.add(id)`, flip `healthy` to `true`, and
`instanceMap.set(instance.id, instance)`. -/
def onHealthCheckPassed (s : RegistryState) (inst : Instance) : RegistryState :=
  if inst.healthy = true then s
  else
    { serviceMap := smUpdate s.serviceMap inst.serviceType (fun ids => setAdd ids inst.id),
      instanceMap := listSet s.instanceMap inst.id { inst with healthy := true } }

/-- The record `register` constructs: spread the request, mint an id, set
`healthy = true` and `created = lastUpdated = Date.now()`. -/
def mkInstance (req : RegisterRequest) (id : String) (now : Nat) : Instance :=
  { id := id, serviceType := req.serviceType, host := req.host, port := req.port,
    created := now, lastUpdated := now, healthy := true, meta := req.meta }

/-- `register` with the freshly minted id and timestamp made explicit: it
emits `instanceRegistered`, whose (sole) listener performs the insertion. -/
def registerCore (s : RegistryState) (req : RegisterRequest) (id : String)
    (now : Nat) : RegistryState :=
  onInstanceRegistered s (mkInstance req id now)

/-- `unregister(id)`: look the instance up and emit `instanceRemoved` only if
it is present; silently return otherwise. -/
def unregister (s : RegistryState) (id : String) : RegistryState :=
  match listGet s.instanceMap id with
  | some inst => onInstanceRemoved s inst
  | none => s

/-- `getInstanceById(id)`. -/
def getInstanceById (s : RegistryState) (id : String) : Option Instance :=
  listGet s.instanceMap id

/-- `getInstancesByType(t)`: map the ids of `serviceMap.get(t) ?? []` through
`instanceMap.get`. -/
def getInstancesByType (s : RegistryState) (t : String) : List (Option Instance) :=
  ((listGet s.serviceMap t).getD []).map (listGet s.instanceMap)

/-! ## Lookup lemmas for the association-list operations -/

theorem keysOf_nil {α : Type} : keysOf ([] : List (String × α)) = [] := rfl

theorem keysOf_cons {α : Type} (k : String) (v : α) (rest : List (String × α)) :
    keysOf ((k, v) :: rest) = k :: keysOf rest := rfl

theorem listGet_listSet_self {α : Type} (m : List (String × α)) (k : String) (v : α) :
    listGet (listSet m k v) k = some v := by
  induction m with
  | nil => simp [listSet, listGet]
  | cons p rest ih =>
    obtain ⟨k', v'⟩ := p
    by_cases h : k' = k
    · simp [listSet, listGet, h]
    · simp [listSet, listGet, h, ih]

theorem listGet_listSet_ne {α : Type} (m : List (String × α)) {k k' : String} (v : α)
    (h : k' ≠ k) : listGet (listSet m k v) k' = listGet m k' := by
  have h' : ¬(k = k') := fun hh => h hh.symm
  induction m with
  | nil => simp [listSet, listGet, h']
  | cons p rest ih =>
    obtain ⟨k₀, v₀⟩ := p
    by_cases hk : k₀ = k
    · subst hk
      simp [listSet, listGet, h']
    · simp [listSet, listGet, hk, ih]

theorem listGet_eq_none_iff {α : Type} (m : List (String × α)) (k : String) :
    listGet m k = none ↔ k ∉ keysOf m := by
  induction m with
  | nil => simp [listGet, keysOf]
  | cons p rest ih =>
    obtain ⟨k', v⟩ := p
    rw [keysOf_cons]
    by_cases h : k' = k
    · subst h
      simp [listGet]
    · have h' : ¬(k = k') := fun hh => h hh.symm
      simp [listGet, h, h', ih]

theorem listSet_of_absent {α : Type} (m : List (String × α)) {k : String} (v : α)
    (h : listGet m k = none) : listSet m k v = m ++ [(k, v)] := by
  induction m with
  | nil => simp [listSet]
  | cons p rest ih =>
    obtain ⟨k', v'⟩ := p
    by_cases hk : k' = k
    · simp [listGet, hk] at h
    · simp [listGet, hk] at h
      simp [listSet, hk, ih h]

theorem keysOf_listSet_of_present {α : Type} (m : List (String × α)) {k : String}
    (v : α) (h : (listGet m k).isSome) : keysOf (listSet m k v) = keysOf m := by
  induction m with
  | nil => simp [listGet] at h
  | cons p rest ih =>
    obtain ⟨k', v'⟩ := p
    by_cases hk : k' = k
    · simp [listSet, keysOf, hk]
    · simp [listGet, hk] at h
      simp [listSet, keysOf, hk] at ih ⊢
      exact ih h

theorem listGet_listDelete_ne {α : Type} (m : List (String × α)) {k k' : String}
    (h : k' ≠ k) : listGet (listDelete m k) k' = listGet m k' := by
  have h' : ¬(k = k') := fun hh => h hh.symm
  induction m with
  | nil => simp [listDelete]
  | cons p rest ih =>
    obtain ⟨k₀, v₀⟩ := p
    by_cases hk : k₀ = k
    · subst hk
      simp [listDelete, listGet, h']
    · simp [listDelete, listGet, hk, ih]

theorem listGet_listDelete_self {α : Type} (m : List (String × α)) (k : String)
    (h : (keysOf m).Nodup) : listGet (listDelete m k) k = none := by
  induction m with
  | nil => simp [listDelete, listGet]
  | cons p rest ih =>
    obtain ⟨k', v⟩ := p
    rw [keysOf_cons] at h
    rw [List.nodup_cons] at h
    by_cases hk : k' = k
    · subst hk
      simp [listDelete]
      rw [listGet_eq_none_iff]
      exact h.1
    · simp [listDelete, listGet, hk]
      exact ih h.2

theorem keysOf_listDelete_sublist {α : Type} (m : List (String × α)) (k : String) :
    (keysOf (listDelete m k)).Sublist (keysOf m) := by
  induction m with
  | nil => simp [listDelete, keysOf]
  | cons p rest ih =>
    obtain ⟨k', v⟩ := p
    by_cases hk : k' = k
    · simp [listDelete, hk, keysOf_cons]
    · simp [listDelete, hk, keysOf_cons]
      exact ih

theorem listGet_smUpdate_self (sm : List (String × List String)) (t : String)
    (f : List String → List String) :
    listGet (smUpdate sm t f) t = (listGet sm t).map f := by
  induction sm with
  | nil => simp [smUpdate, listGet]
  | cons p rest ih =>
    obtain ⟨t', ids⟩ := p
    by_cases h : t' = t
    · simp [smUpdate, listGet, h]
    · simp [smUpdate, listGet, h, ih]

theorem listGet_smUpdate_ne (sm : List (String × List String)) {t t' : String}
    (f : List String → List String) (h : t' ≠ t) :
    listGet (smUpdate sm t f) t' = listGet sm t' := by
  have h' : ¬(t = t') := fun hh => h hh.symm
  induction sm with
  | nil => simp [smUpdate]
  | cons p rest ih =>
    obtain ⟨t₀, ids⟩ := p
    by_cases hk : t₀ = t
    · subst hk
      simp [smUpdate, listGet, h']
    · simp [smUpdate, listGet, hk, ih]

theorem keysOf_smUpdate (sm : List (String × List String)) (t : String)
    (f : List String → List String) : keysOf (smUpdate sm t f) = keysOf sm := by
  induction sm with
  | nil => simp [smUpdate]
  | cons p rest ih =>
    obtain ⟨t₀, ids⟩ := p
    by_cases hk : t₀ = t
    · simp [smUpdate, keysOf_cons, hk]
    · simp [smUpdate, keysOf_cons, hk, ih]

theorem listGet_append_left {α : Type} (m m₂ : List (String × α)) {k : String} {v : α}
    (h : listGet m k = some v) : listGet (m ++ m₂) k = some v := by
  induction m with
  | nil => simp [listGet] at h
  | cons p rest ih =>
    obtain ⟨k', v'⟩ := p
    by_cases hk : k' = k
    · simp [listGet, hk] at h ⊢
      exact h
    · simp [listGet, hk] at h ⊢
      exact ih h

theorem listGet_smEnsure_self (sm : List (String × List String)) (t : String) :
    listGet (smEnsure sm t) t = some ((listGet sm t).getD []) := by
  unfold smEnsure
  cases h : listGet sm t with
  | some ids => simp [h]
  | none =>
    simp [h]
    induction sm with
    | nil => simp [listGet]
    | cons p rest ih =>
      obtain ⟨t₀, ids₀⟩ := p
      by_cases hk : t₀ = t
      · simp [listGet, hk] at h
      · simp [listGet, hk] at h ⊢
        exact ih h

theorem listGet_smEnsure_ne (sm : List (String × List String)) {t t' : String}
    (h : t' ≠ t) : listGet (smEnsure sm t) t' = listGet sm t' := by
  have h' : ¬(t = t') := fun hh => h hh.symm
  unfold smEnsure
  cases hs : listGet sm t with
  | some ids => simp
  | none =>
    simp
    induction sm with
    | nil => simp [listGet, h']
    | cons p rest ih =>
      obtain ⟨t₀, ids₀⟩ := p
      by_cases hk : t₀ = t
      · simp [listGet, hk] at hs
      · simp [listGet, hk] at hs
        by_cases hk' : t₀ = t'
        · simp [listGet, hk']
        · simp [listGet, hk', ih hs]

theorem keysOf_smEnsure_of_present (sm : List (String × List String)) {t : String}
    (h : (listGet sm t).isSome) : smEnsure sm t = sm := by
  unfold smEnsure
  simp [h]

theorem mem_setAdd {s : List String} {x y : String} :
    y ∈ setAdd s x ↔ y ∈ s ∨ y = x := by
  unfold setAdd
  by_cases h : x ∈ s
  · simp [h]
    intro hy
    subst hy
    exact h
  · simp [h]

theorem setAdd_nodup {s : List String} (h : s.Nodup) (x : String) :
    (setAdd s x).Nodup := by
  unfold setAdd
  by_cases hx : x ∈ s
  · simpa [hx]
  · simp [hx]
    exact List.Nodup.append h (List.nodup_singleton x) (by simpa using hx)

theorem isSome_smUpdate (sm : List (String × List String)) (t : String)
    (f : List String → List String) (τ : String) :
    (listGet (smUpdate sm t f) τ).isSome = (listGet sm τ).isSome := by
  by_cases h : τ = t
  · subst h
    rw [listGet_smUpdate_self]
    cases listGet sm τ <;> simp
  · rw [listGet_smUpdate_ne _ _ h]

theorem keysOf_append {α : Type} (m m₂ : List (String × α)) :
    keysOf (m ++ m₂) = keysOf m ++ keysOf m₂ := by
  simp [keysOf]

theorem ne_of_some_none {α : Type} {m : List (String × α)} {a b : String} {v : α}
    (ha : listGet m a = some v) (hb : listGet m b = none) : a ≠ b := by
  intro h
  subst h
  rw [ha] at hb
  exact Option.noConfusion hb

theorem nodup_map_mem_inj {α β : Type} {f : α → β} {l : List α}
    (h : (l.map f).Nodup) {a b : α} (ha : a ∈ l) (hb : b ∈ l) (hf : f a = f b) :
    a = b := by
  induction l with
  | nil => cases ha
  | cons x xs ih =>
    rw [List.map_cons, List.nodup_cons] at h
    rcases List.mem_cons.mp ha with rfl | ha'
    · rcases List.mem_cons.mp hb with rfl | hb'
      · rfl
      · exact absurd (hf ▸ List.mem_map_of_mem f hb') h.1
    · rcases List.mem_cons.mp hb with rfl | hb'
      · exact absurd (hf ▸ List.mem_map_of_mem f ha') h.1
      · exact ih h.2 ha' hb'

/-! ## Reachable system states

A probe result is delivered to the `healthCheckFailed` / `healthCheckPassed`
listener as the `Instance` *object* held by the health-cycle snapshot.  While
an id is registered, that object is the very record stored in `instanceMap`
(all mutation goes through it); after `unregister` the snapshot can still
hold the removed object, so the listener can run on a record that is absent
from `instanceMap`.  `Sys` tracks these dangling snapshot objects in
`removed`. -/

structure Sys where
  reg : RegistryState
  removed : List Instance
deriving DecidableEq

def sysInit : Sys := ⟨emptyState, []⟩

/-- One application of a registry operation or of a health-probe listener,
exactly as the event listeners execute them. `register` mints a globally
fresh id (`randomUUID`). -/
inductive Step : Sys → Sys → Prop where
  | register (σ : Sys) (req : RegisterRequest) (id : String) (now : Nat)
      (hfresh : listGet σ.reg.instanceMap id = none)
      (hrem : ∀ r ∈ σ.removed, r.id ≠ id) :
      Step σ ⟨registerCore σ.reg req id now, σ.removed⟩
  | unregisterPresent (σ : Sys) (id : String) (inst : Instance)
      (h : listGet σ.reg.instanceMap id = some inst) :
      Step σ ⟨onInstanceRemoved σ.reg inst, σ.removed ++ [inst]⟩
  | unregisterAbsent (σ : Sys) (id : String)
      (h : listGet σ.reg.instanceMap id = none) : Step σ σ
  | probeFailPresent (σ : Sys) (id : String) (inst : Instance)
      (h : listGet σ.reg.instanceMap id = some inst) :
      Step σ ⟨onHealthCheckFailed σ.reg inst, σ.removed⟩
  | probePassPresent (σ : Sys) (id : String) (inst : Instance)
      (h : listGet σ.reg.instanceMap id = some inst) :
      Step σ ⟨onHealthCheckPassed σ.reg inst, σ.removed⟩
  | probeFailRemoved (σ : Sys) (inst : Instance) (h : inst ∈ σ.removed) :
      Step σ ⟨onHealthCheckFailed σ.reg inst, σ.removed.erase inst⟩
  | probePassRemoved (σ : Sys) (inst : Instance) (h : inst ∈ σ.removed) :
      Step σ ⟨onHealthCheckPassed σ.reg inst, σ.removed.erase inst⟩

/-- States reachable from the empty registry by finite sequences of the four
handler applications. -/
inductive Reachable : Sys → Prop where
  | init : Reachable sysInit
  | step {σ σ' : Sys} : Reachable σ → Step σ σ' → Reachable σ'

/-- The inductive invariant of the Dual Index, strengthened with the
bookkeeping facts needed for induction. -/
structure Inv (σ : Sys) : Prop where
  indexA : ∀ t ids id, listGet σ.reg.serviceMap t = some ids → id ∈ ids →
    ∃ rec, listGet σ.reg.instanceMap id = some rec ∧
      rec.serviceType = t ∧ rec.healthy = true
  reflectB : ∀ id rec, listGet σ.reg.instanceMap id = some rec →
    rec.healthy = true →
    ∃ ids, listGet σ.reg.serviceMap rec.serviceType = some ids ∧ id ∈ ids
  idsOk : ∀ id rec, listGet σ.reg.instanceMap id = some rec → rec.id = id
  typesOk : ∀ id rec, listGet σ.reg.instanceMap id = some rec →
    (listGet σ.reg.serviceMap rec.serviceType).isSome
  removedTypes : ∀ r ∈ σ.removed, (listGet σ.reg.serviceMap r.serviceType).isSome
  removedAbsent : ∀ r ∈ σ.removed, listGet σ.reg.instanceMap r.id = none
  removedIdsNodup : (σ.removed.map Instance.id).Nodup
  mapKeysNodup : (keysOf σ.reg.instanceMap).Nodup
  setsNodup : ∀ t ids, listGet σ.reg.serviceMap t = some ids → ids.Nodup

theorem inv_init : Inv sysInit := by
  constructor <;> simp [sysInit, emptyState, listGet, keysOf]

theorem inv_register (σ : Sys) (req : RegisterRequest) (id : String) (now : Nat)
    (hI : Inv σ) (hfresh : listGet σ.reg.instanceMap id = none)
    (hrem : ∀ r ∈ σ.removed, r.id ≠ id) :
    Inv ⟨registerCore σ.reg req id now, σ.removed⟩ := by
  set t₀ := req.serviceType with ht₀
  set inst := mkInstance req id now with hinst
  set old := (listGet σ.reg.serviceMap t₀).getD [] with hold
  have hinstid : inst.id = id := rfl
  have hinsttype : inst.serviceType = t₀ := rfl
  have hsm_self : listGet (registerCore σ.reg req id now).serviceMap t₀ =
      some (setAdd old id) := by
    show listGet (smUpdate (smEnsure σ.reg.serviceMap t₀) t₀
      (fun ids => setAdd ids inst.id)) t₀ = some (setAdd old id)
    rw [listGet_smUpdate_self, listGet_smEnsure_self]
    rfl
  have hsm_ne : ∀ t, t ≠ t₀ →
      listGet (registerCore σ.reg req id now).serviceMap t =
        listGet σ.reg.serviceMap t := by
    intro t ht
    show listGet (smUpdate (smEnsure σ.reg.serviceMap t₀) t₀
      (fun ids => setAdd ids inst.id)) t = _
    rw [listGet_smUpdate_ne _ _ ht, listGet_smEnsure_ne _ ht]
  have hm_self : listGet (registerCore σ.reg req id now).instanceMap id =
      some inst := by
    show listGet (listSet σ.reg.instanceMap inst.id inst) id = some inst
    rw [hinstid]
    exact listGet_listSet_self _ _ _
  have hm_ne : ∀ id', id' ≠ id →
      listGet (registerCore σ.reg req id now).instanceMap id' =
        listGet σ.reg.instanceMap id' := by
    intro id' hid'
    show listGet (listSet σ.reg.instanceMap inst.id inst) id' = _
    rw [hinstid]
    exact listGet_listSet_ne _ _ hid'
  have hold_some : ∀ {x : String}, x ∈ old →
      listGet σ.reg.serviceMap t₀ = some old := by
    intro x hx
    cases hc : listGet σ.reg.serviceMap t₀ with
    | none =>
      rw [hold, hc] at hx
      cases hx
    | some ids₀ =>
      rw [hold, hc]
      rfl
  constructor
  · -- indexA
    intro t ids id' hsm hid'
    by_cases ht : t = t₀
    · subst ht
      rw [hsm_self] at hsm
      cases hsm
      rcases mem_setAdd.mp hid' with hmem | rfl
      · have hsm₀ := hold_some hmem
        obtain ⟨rec, hrec, htype, hh⟩ := hI.indexA _ _ _ hsm₀ hmem
        have hne := ne_of_some_none hrec hfresh
        exact ⟨rec, by rw [hm_ne _ hne]; exact hrec, htype, hh⟩
      · exact ⟨inst, hm_self, hinsttype, rfl⟩
    · rw [hsm_ne _ ht] at hsm
      obtain ⟨rec, hrec, htype, hh⟩ := hI.indexA _ _ _ hsm hid'
      have hne := ne_of_some_none hrec hfresh
      exact ⟨rec, by rw [hm_ne _ hne]; exact hrec, htype, hh⟩
  · -- reflectB
    intro id' rec hm hh
    by_cases hid : id' = id
    · subst hid
      rw [hm_self] at hm
      obtain rfl : inst = rec := Option.some.inj hm
      refine ⟨setAdd old id', by rw [hinsttype, hsm_self], ?_⟩
      exact mem_setAdd.mpr (Or.inr rfl)
    · rw [hm_ne _ hid] at hm
      obtain ⟨ids, hsm₀, hmem⟩ := hI.reflectB _ _ hm hh
      by_cases ht : rec.serviceType = t₀
      · rw [ht] at hsm₀
        have : old = ids := by rw [hold, hsm₀]; rfl
        refine ⟨setAdd old id, by rw [ht, hsm_self], ?_⟩
        rw [this]
        exact mem_setAdd.mpr (Or.inl hmem)
      · exact ⟨ids, by rw [hsm_ne _ ht]; exact hsm₀, hmem⟩
  · -- idsOk
    intro id' rec hm
    by_cases hid : id' = id
    · subst hid
      rw [hm_self] at hm
      obtain rfl : inst = rec := Option.some.inj hm
      rfl
    · rw [hm_ne _ hid] at hm
      exact hI.idsOk _ _ hm
  · -- typesOk
    intro id' rec hm
    by_cases hid : id' = id
    · subst hid
      rw [hm_self] at hm
      obtain rfl : inst = rec := Option.some.inj hm
      rw [hinsttype, hsm_self]
      rfl
    · rw [hm_ne _ hid] at hm
      by_cases ht : rec.serviceType = t₀
      · rw [ht, hsm_self]
        rfl
      · rw [hsm_ne _ ht]
        exact hI.typesOk _ _ hm
  · -- removedTypes
    intro r hr
    by_cases ht : r.serviceType = t₀
    · rw [ht, hsm_self]
      rfl
    · rw [hsm_ne _ ht]
      exact hI.removedTypes _ hr
  · -- removedAbsent
    intro r hr
    rw [hm_ne _ (hrem _ hr)]
    exact hI.removedAbsent _ hr
  · -- removedIdsNodup
    exact hI.removedIdsNodup
  · -- mapKeysNodup
    show (keysOf (listSet σ.reg.instanceMap inst.id inst)).Nodup
    rw [hinstid, listSet_of_absent _ _ hfresh, keysOf_append]
    refine List.Nodup.append hI.mapKeysNodup (by simp [keysOf]) ?_
    intro a ha hb
    simp [keysOf] at hb
    subst hb
    exact ((listGet_eq_none_iff _ _).mp hfresh) ha
  · -- setsNodup
    intro t ids hsm
    by_cases ht : t = t₀
    · subst ht
      rw [hsm_self] at hsm
      cases hsm
      refine setAdd_nodup ?_ _
      cases hc : listGet σ.reg.serviceMap t₀ with
      | none => simp [hold, hc]
      | some ids₀ =>
        have : old = ids₀ := by rw [hold, hc]; rfl
        rw [this]
        exact hI.setsNodup _ _ hc
    · rw [hsm_ne _ ht] at hsm
      exact hI.setsNodup _ _ hsm

theorem inv_unregisterPresent (σ : Sys) (id : String) (inst : Instance)
    (hI : Inv σ) (h : listGet σ.reg.instanceMap id = some inst) :
    Inv ⟨onInstanceRemoved σ.reg inst, σ.removed ++ [inst]⟩ := by
  have hid : inst.id = id := hI.idsOk _ _ h
  set t₀ := inst.serviceType with ht₀
  obtain ⟨ids₀, hids₀⟩ := Option.isSome_iff_exists.mp (hI.typesOk _ _ h)
  have hids₀nodup := hI.setsNodup _ _ hids₀
  have hsm_self : listGet (onInstanceRemoved σ.reg inst).serviceMap t₀ =
      some (ids₀.erase id) := by
    show listGet (smUpdate σ.reg.serviceMap t₀ (fun ids => ids.erase inst.id)) t₀ = _
    rw [listGet_smUpdate_self, hids₀, hid]
    rfl
  have hsm_ne : ∀ t, t ≠ t₀ →
      listGet (onInstanceRemoved σ.reg inst).serviceMap t =
        listGet σ.reg.serviceMap t := by
    intro t ht
    exact listGet_smUpdate_ne _ _ ht
  have hm_self : listGet (onInstanceRemoved σ.reg inst).instanceMap id = none := by
    show listGet (listDelete σ.reg.instanceMap inst.id) id = none
    rw [hid]
    exact listGet_listDelete_self _ _ hI.mapKeysNodup
  have hm_ne : ∀ id', id' ≠ id →
      listGet (onInstanceRemoved σ.reg inst).instanceMap id' =
        listGet σ.reg.instanceMap id' := by
    intro id' hid'
    show listGet (listDelete σ.reg.instanceMap inst.id) id' = _
    rw [hid]
    exact listGet_listDelete_ne _ hid'
  constructor
  · -- indexA
    intro t ids id' hsm hid'
    by_cases ht : t = t₀
    · subst ht
      rw [hsm_self] at hsm
      cases hsm
      obtain ⟨hne, hmem⟩ := (List.Nodup.mem_erase_iff hids₀nodup).mp hid'
      obtain ⟨rec, hrec, htype, hh⟩ := hI.indexA _ _ _ hids₀ hmem
      exact ⟨rec, by rw [hm_ne _ hne]; exact hrec, htype, hh⟩
    · rw [hsm_ne _ ht] at hsm
      obtain ⟨rec, hrec, htype, hh⟩ := hI.indexA _ _ _ hsm hid'
      have hne : id' ≠ id := by
        intro he
        subst he
        rw [h] at hrec
        obtain rfl : inst = rec := Option.some.inj hrec
        exact ht htype.symm
      exact ⟨rec, by rw [hm_ne _ hne]; exact hrec, htype, hh⟩
  · -- reflectB
    intro id' rec hm hh
    have hne : id' ≠ id := ne_of_some_none hm hm_self
    rw [hm_ne _ hne] at hm
    obtain ⟨ids, hsm₀, hmem⟩ := hI.reflectB _ _ hm hh
    by_cases ht : rec.serviceType = t₀
    · rw [ht] at hsm₀
      rw [hids₀] at hsm₀
      obtain rfl : ids₀ = ids := Option.some.inj hsm₀
      refine ⟨ids₀.erase id, by rw [ht, hsm_self], ?_⟩
      exact (List.mem_erase_of_ne hne).mpr hmem
    · exact ⟨ids, by rw [hsm_ne _ ht]; exact hsm₀, hmem⟩
  · -- idsOk
    intro id' rec hm
    have hne : id' ≠ id := ne_of_some_none hm hm_self
    rw [hm_ne _ hne] at hm
    exact hI.idsOk _ _ hm
  · -- typesOk
    intro id' rec hm
    have hne : id' ≠ id := ne_of_some_none hm hm_self
    rw [hm_ne _ hne] at hm
    show (listGet (smUpdate σ.reg.serviceMap t₀ (fun ids => ids.erase inst.id))
      rec.serviceType).isSome
    rw [isSome_smUpdate]
    exact hI.typesOk _ _ hm
  · -- removedTypes
    intro r hr
    show (listGet (smUpdate σ.reg.serviceMap t₀ (fun ids => ids.erase inst.id))
      r.serviceType).isSome
    rw [isSome_smUpdate]
    rcases List.mem_append.mp hr with hr' | hr'
    · exact hI.removedTypes _ hr'
    · obtain rfl : r = inst := by simpa using hr'
      exact hI.typesOk _ _ h
  · -- removedAbsent
    intro r hr
    rcases List.mem_append.mp hr with hr' | hr'
    · have hnone := hI.removedAbsent _ hr'
      by_cases hre : r.id = id
      · rw [hre]
        exact hm_self
      · rw [hm_ne _ hre]
        exact hnone
    · obtain rfl : r = inst := by simpa using hr'
      rw [hid]
      exact hm_self
  · -- removedIdsNodup
    rw [List.map_append]
    refine List.Nodup.append hI.removedIdsNodup (by simp) ?_
    intro a ha hb
    simp [hid] at hb
    subst hb
    obtain ⟨r, hr, hrid⟩ := List.mem_map.mp ha
    have := hI.removedAbsent _ hr
    rw [hrid] at this
    rw [h] at this
    exact Option.noConfusion this
  · -- mapKeysNodup
    exact List.Nodup.sublist (keysOf_listDelete_sublist _ _) hI.mapKeysNodup
  · -- setsNodup
    intro t ids hsm
    by_cases ht : t = t₀
    · subst ht
      rw [hsm_self] at hsm
      cases hsm
      exact List.Nodup.erase _ hids₀nodup
    · rw [hsm_ne _ ht] at hsm
      exact hI.setsNodup _ _ hsm

theorem inv_probeFailPresent (σ : Sys) (id : String) (inst : Instance)
    (hI : Inv σ) (h : listGet σ.reg.instanceMap id = some inst) :
    Inv ⟨onHealthCheckFailed σ.reg inst, σ.removed⟩ := by
  by_cases hguard : inst.healthy = false
  · simpa [onHealthCheckFailed, hguard] using hI
  have hhealthy : inst.healthy = true := by
    cases hc : inst.healthy
    · exact absurd hc hguard
    · rfl
  have hid : inst.id = id := hI.idsOk _ _ h
  set t₀ := inst.serviceType with ht₀
  obtain ⟨ids₀, hids₀⟩ := Option.isSome_iff_exists.mp (hI.typesOk _ _ h)
  have hids₀nodup := hI.setsNodup _ _ hids₀
  set inst' : Instance := { inst with healthy := false } with hinst'
  have hunfold : onHealthCheckFailed σ.reg inst =
      { serviceMap := smUpdate σ.reg.serviceMap t₀ (fun ids => ids.erase inst.id),
        instanceMap := listSet σ.reg.instanceMap inst.id inst' } := by
    unfold onHealthCheckFailed
    rw [if_neg hguard]
  have hsm_self : listGet (onHealthCheckFailed σ.reg inst).serviceMap t₀ =
      some (ids₀.erase id) := by
    rw [hunfold]
    show listGet (smUpdate σ.reg.serviceMap t₀ (fun ids => ids.erase inst.id)) t₀ = _
    rw [listGet_smUpdate_self, hids₀, hid]
    rfl
  have hsm_ne : ∀ t, t ≠ t₀ →
      listGet (onHealthCheckFailed σ.reg inst).serviceMap t =
        listGet σ.reg.serviceMap t := by
    intro t ht
    rw [hunfold]
    exact listGet_smUpdate_ne _ _ ht
  have hm_self : listGet (onHealthCheckFailed σ.reg inst).instanceMap id =
      some inst' := by
    rw [hunfold]
    show listGet (listSet σ.reg.instanceMap inst.id inst') id = _
    rw [hid]
    exact listGet_listSet_self _ _ _
  have hm_ne : ∀ id', id' ≠ id →
      listGet (onHealthCheckFailed σ.reg inst).instanceMap id' =
        listGet σ.reg.instanceMap id' := by
    intro id' hid'
    rw [hunfold]
    show listGet (listSet σ.reg.instanceMap inst.id inst') id' = _
    rw [hid]
    exact listGet_listSet_ne _ _ hid'
  constructor
  · -- indexA
    intro t ids id' hsm hid'
    by_cases ht : t = t₀
    · subst ht
      rw [hsm_self] at hsm
      cases hsm
      obtain ⟨hne, hmem⟩ := (List.Nodup.mem_erase_iff hids₀nodup).mp hid'
      obtain ⟨rec, hrec, htype, hh⟩ := hI.indexA _ _ _ hids₀ hmem
      exact ⟨rec, by rw [hm_ne _ hne]; exact hrec, htype, hh⟩
    · rw [hsm_ne _ ht] at hsm
      obtain ⟨rec, hrec, htype, hh⟩ := hI.indexA _ _ _ hsm hid'
      have hne : id' ≠ id := by
        intro he
        subst he
        rw [h] at hrec
        obtain rfl : inst = rec := Option.some.inj hrec
        exact ht htype.symm
      exact ⟨rec, by rw [hm_ne _ hne]; exact hrec, htype, hh⟩
  · -- reflectB
    intro id' rec hm hh
    by_cases hne : id' = id
    · subst hne
      rw [hm_self] at hm
      obtain rfl : inst' = rec := Option.some.inj hm
      simp [hinst'] at hh
    · rw [hm_ne _ hne] at hm
      obtain ⟨ids, hsm₀, hmem⟩ := hI.reflectB _ _ hm hh
      by_cases ht : rec.serviceType = t₀
      · rw [ht] at hsm₀
        rw [hids₀] at hsm₀
        obtain rfl : ids₀ = ids := Option.some.inj hsm₀
        refine ⟨ids₀.erase id, by rw [ht, hsm_self], ?_⟩
        exact (List.mem_erase_of_ne hne).mpr hmem
      · exact ⟨ids, by rw [hsm_ne _ ht]; exact hsm₀, hmem⟩
  · -- idsOk
    intro id' rec hm
    by_cases hne : id' = id
    · rw [hne, hm_self] at hm
      obtain rfl : inst' = rec := Option.some.inj hm
      rw [hne]
      exact hid
    · rw [hm_ne _ hne] at hm
      exact hI.idsOk _ _ hm
  · -- typesOk
    intro id' rec hm
    have hSome : ∀ τ, (listGet σ.reg.serviceMap τ).isSome →
        (listGet (onHealthCheckFailed σ.reg inst).serviceMap τ).isSome := by
      intro τ hτ
      rw [hunfold]
      show (listGet (smUpdate σ.reg.serviceMap t₀ (fun ids => ids.erase inst.id))
        τ).isSome
      rw [isSome_smUpdate]
      exact hτ
    by_cases hne : id' = id
    · subst hne
      rw [hm_self] at hm
      obtain rfl : inst' = rec := Option.some.inj hm
      refine hSome _ ?_
      show (listGet σ.reg.serviceMap t₀).isSome
      rw [hids₀]
      rfl
    · rw [hm_ne _ hne] at hm
      exact hSome _ (hI.typesOk _ _ hm)
  · -- removedTypes
    intro r hr
    have := hI.removedTypes _ hr
    rw [hunfold]
    show (listGet (smUpdate σ.reg.serviceMap t₀ (fun ids => ids.erase inst.id))
      r.serviceType).isSome
    rw [isSome_smUpdate]
    exact this
  · -- removedAbsent
    intro r hr
    have hnone := hI.removedAbsent _ hr
    have hne : r.id ≠ id := by
      intro he
      rw [he, h] at hnone
      exact Option.noConfusion hnone
    rw [hm_ne _ hne]
    exact hnone
  · -- removedIdsNodup
    exact hI.removedIdsNodup
  · -- mapKeysNodup
    rw [hunfold]
    show (keysOf (listSet σ.reg.instanceMap inst.id inst')).Nodup
    rw [keysOf_listSet_of_present]
    · exact hI.mapKeysNodup
    · rw [hid, h]
      rfl
  · -- setsNodup
    intro t ids hsm
    by_cases ht : t = t₀
    · subst ht
      rw [hsm_self] at hsm
      cases hsm
      exact List.Nodup.erase _ hids₀nodup
    · rw [hsm_ne _ ht] at hsm
      exact hI.setsNodup _ _ hsm

theorem inv_probePassPresent (σ : Sys) (id : String) (inst : Instance)
    (hI : Inv σ) (h : listGet σ.reg.instanceMap id = some inst) :
    Inv ⟨onHealthCheckPassed σ.reg inst, σ.removed⟩ := by
  by_cases hguard : inst.healthy = true
  · simpa [onHealthCheckPassed, hguard] using hI
  have hunhealthy : inst.healthy = false := by
    cases hc : inst.healthy
    · rfl
    · exact absurd hc hguard
  have hid : inst.id = id := hI.idsOk _ _ h
  set t₀ := inst.serviceType with ht₀
  obtain ⟨ids₀, hids₀⟩ := Option.isSome_iff_exists.mp (hI.typesOk _ _ h)
  have hids₀nodup := hI.setsNodup _ _ hids₀
  set inst' : Instance := { inst with healthy := true } with hinst'
  have hunfold : onHealthCheckPassed σ.reg inst =
      { serviceMap := smUpdate σ.reg.serviceMap t₀ (fun ids => setAdd ids inst.id),
        instanceMap := listSet σ.reg.instanceMap inst.id inst' } := by
    unfold onHealthCheckPassed
    rw [if_neg hguard]
  have hsm_self : listGet (onHealthCheckPassed σ.reg inst).serviceMap t₀ =
      some (setAdd ids₀ id) := by
    rw [hunfold]
    show listGet (smUpdate σ.reg.serviceMap t₀ (fun ids => setAdd ids inst.id)) t₀ = _
    rw [listGet_smUpdate_self, hids₀, hid]
    rfl
  have hsm_ne : ∀ t, t ≠ t₀ →
      listGet (onHealthCheckPassed σ.reg inst).serviceMap t =
        listGet σ.reg.serviceMap t := by
    intro t ht
    rw [hunfold]
    exact listGet_smUpdate_ne _ _ ht
  have hm_self : listGet (onHealthCheckPassed σ.reg inst).instanceMap id =
      some inst' := by
    rw [hunfold]
    show listGet (listSet σ.reg.instanceMap inst.id inst') id = _
    rw [hid]
    exact listGet_listSet_self _ _ _
  have hm_ne : ∀ id', id' ≠ id →
      listGet (onHealthCheckPassed σ.reg inst).instanceMap id' =
        listGet σ.reg.instanceMap id' := by
    intro id' hid'
    rw [hunfold]
    show listGet (listSet σ.reg.instanceMap inst.id inst') id' = _
    rw [hid]
    exact listGet_listSet_ne _ _ hid'
  constructor
  · -- indexA
    intro t ids id' hsm hid'
    by_cases ht : t = t₀
    · subst ht
      rw [hsm_self] at hsm
      cases hsm
      by_cases hne : id' = id
      · refine ⟨inst', by rw [hne]; exact hm_self, rfl, rfl⟩
      · have hmem : id' ∈ ids₀ := by
          rcases mem_setAdd.mp hid' with hmem | he
          · exact hmem
          · exact absurd he hne
        obtain ⟨rec, hrec, htype, hh⟩ := hI.indexA _ _ _ hids₀ hmem
        exact ⟨rec, by rw [hm_ne _ hne]; exact hrec, htype, hh⟩
    · rw [hsm_ne _ ht] at hsm
      obtain ⟨rec, hrec, htype, hh⟩ := hI.indexA _ _ _ hsm hid'
      have hne : id' ≠ id := by
        intro he
        subst he
        rw [h] at hrec
        obtain rfl : inst = rec := Option.some.inj hrec
        rw [hunhealthy] at hh
        exact Bool.noConfusion hh
      exact ⟨rec, by rw [hm_ne _ hne]; exact hrec, htype, hh⟩
  · -- reflectB
    intro id' rec hm hh
    by_cases hne : id' = id
    · rw [hne, hm_self] at hm
      obtain rfl : inst' = rec := Option.some.inj hm
      refine ⟨setAdd ids₀ id, ?_, ?_⟩
      · show listGet (onHealthCheckPassed σ.reg inst).serviceMap inst.serviceType =
          some (setAdd ids₀ id)
        exact hsm_self
      · rw [hne]
        exact mem_setAdd.mpr (Or.inr rfl)
    · rw [hm_ne _ hne] at hm
      obtain ⟨ids, hsm₀, hmem⟩ := hI.reflectB _ _ hm hh
      by_cases ht : rec.serviceType = t₀
      · rw [ht] at hsm₀
        rw [hids₀] at hsm₀
        obtain rfl : ids₀ = ids := Option.some.inj hsm₀
        refine ⟨setAdd ids₀ id, by rw [ht, hsm_self], ?_⟩
        exact mem_setAdd.mpr (Or.inl hmem)
      · exact ⟨ids, by rw [hsm_ne _ ht]; exact hsm₀, hmem⟩
  · -- idsOk
    intro id' rec hm
    by_cases hne : id' = id
    · rw [hne, hm_self] at hm
      obtain rfl : inst' = rec := Option.some.inj hm
      rw [hne]
      exact hid
    · rw [hm_ne _ hne] at hm
      exact hI.idsOk _ _ hm
  · -- typesOk
    intro id' rec hm
    have hSome : ∀ τ, (listGet σ.reg.serviceMap τ).isSome →
        (listGet (onHealthCheckPassed σ.reg inst).serviceMap τ).isSome := by
      intro τ hτ
      rw [hunfold]
      show (listGet (smUpdate σ.reg.serviceMap t₀ (fun ids => setAdd ids inst.id))
        τ).isSome
      rw [isSome_smUpdate]
      exact hτ
    by_cases hne : id' = id
    · rw [hne, hm_self] at hm
      obtain rfl : inst' = rec := Option.some.inj hm
      refine hSome _ ?_
      show (listGet σ.reg.serviceMap t₀).isSome
      rw [hids₀]
      rfl
    · rw [hm_ne _ hne] at hm
      exact hSome _ (hI.typesOk _ _ hm)
  · -- removedTypes
    intro r hr
    have := hI.removedTypes _ hr
    rw [hunfold]
    show (listGet (smUpdate σ.reg.serviceMap t₀ (fun ids => setAdd ids inst.id))
      r.serviceType).isSome
    rw [isSome_smUpdate]
    exact this
  · -- removedAbsent
    intro r hr
    have hnone := hI.removedAbsent _ hr
    have hne : r.id ≠ id := by
      intro he
      rw [he, h] at hnone
      exact Option.noConfusion hnone
    rw [hm_ne _ hne]
    exact hnone
  · -- removedIdsNodup
    exact hI.removedIdsNodup
  · -- mapKeysNodup
    rw [hunfold]
    show (keysOf (listSet σ.reg.instanceMap inst.id inst')).Nodup
    rw [keysOf_listSet_of_present]
    · exact hI.mapKeysNodup
    · rw [hid, h]
      rfl
  · -- setsNodup
    intro t ids hsm
    by_cases ht : t = t₀
    · subst ht
      rw [hsm_self] at hsm
      cases hsm
      exact setAdd_nodup hids₀nodup _
    · rw [hsm_ne _ ht] at hsm
      exact hI.setsNodup _ _ hsm

theorem removed_nodup {σ : Sys} (hI : Inv σ) : σ.removed.Nodup :=
  List.Nodup.of_map _ hI.removedIdsNodup

theorem inv_erase_removed (σ : Sys) (r : Instance) (hI : Inv σ) :
    Inv ⟨σ.reg, σ.removed.erase r⟩ := by
  constructor
  · exact hI.indexA
  · exact hI.reflectB
  · exact hI.idsOk
  · exact hI.typesOk
  · exact fun r' hr' => hI.removedTypes _ (List.mem_of_mem_erase hr')
  · exact fun r' hr' => hI.removedAbsent _ (List.mem_of_mem_erase hr')
  · exact List.Nodup.sublist (List.Sublist.map _ (List.erase_sublist _ _))
      hI.removedIdsNodup
  · exact hI.mapKeysNodup
  · exact hI.setsNodup

theorem inv_probeFailRemoved (σ : Sys) (r : Instance)
    (hI : Inv σ) (hr : r ∈ σ.removed) :
    Inv ⟨onHealthCheckFailed σ.reg r, σ.removed.erase r⟩ := by
  by_cases hguard : r.healthy = false
  · have hreg : onHealthCheckFailed σ.reg r = σ.reg := by
      unfold onHealthCheckFailed
      rw [if_pos hguard]
    rw [hreg]
    exact inv_erase_removed σ r hI
  have hhealthy : r.healthy = true := by
    cases hc : r.healthy
    · exact absurd hc hguard
    · rfl
  have habs : listGet σ.reg.instanceMap r.id = none := hI.removedAbsent _ hr
  set t₀ := r.serviceType with ht₀
  obtain ⟨ids₀, hids₀⟩ := Option.isSome_iff_exists.mp (hI.removedTypes _ hr)
  have hids₀nodup := hI.setsNodup _ _ hids₀
  set r' : Instance := { r with healthy := false } with hr'
  have hunfold : onHealthCheckFailed σ.reg r =
      { serviceMap := smUpdate σ.reg.serviceMap t₀ (fun ids => ids.erase r.id),
        instanceMap := listSet σ.reg.instanceMap r.id r' } := by
    unfold onHealthCheckFailed
    rw [if_neg hguard]
  have hsm_self : listGet (onHealthCheckFailed σ.reg r).serviceMap t₀ =
      some (ids₀.erase r.id) := by
    rw [hunfold]
    show listGet (smUpdate σ.reg.serviceMap t₀ (fun ids => ids.erase r.id)) t₀ = _
    rw [listGet_smUpdate_self, hids₀]
    rfl
  have hsm_ne : ∀ t, t ≠ t₀ →
      listGet (onHealthCheckFailed σ.reg r).serviceMap t =
        listGet σ.reg.serviceMap t := by
    intro t ht
    rw [hunfold]
    exact listGet_smUpdate_ne _ _ ht
  have hm_self : listGet (onHealthCheckFailed σ.reg r).instanceMap r.id =
      some r' := by
    rw [hunfold]
    exact listGet_listSet_self _ _ _
  have hm_ne : ∀ id', id' ≠ r.id →
      listGet (onHealthCheckFailed σ.reg r).instanceMap id' =
        listGet σ.reg.instanceMap id' := by
    intro id' hid'
    rw [hunfold]
    exact listGet_listSet_ne _ _ hid'
  constructor
  · -- indexA
    intro t ids id' hsm hid'
    by_cases ht : t = t₀
    · subst ht
      rw [hsm_self] at hsm
      cases hsm
      have hmem : id' ∈ ids₀ := List.mem_of_mem_erase hid'
      obtain ⟨rec, hrec, htype, hh⟩ := hI.indexA _ _ _ hids₀ hmem
      have hne : id' ≠ r.id := ne_of_some_none hrec habs
      exact ⟨rec, by rw [hm_ne _ hne]; exact hrec, htype, hh⟩
    · rw [hsm_ne _ ht] at hsm
      obtain ⟨rec, hrec, htype, hh⟩ := hI.indexA _ _ _ hsm hid'
      have hne : id' ≠ r.id := ne_of_some_none hrec habs
      exact ⟨rec, by rw [hm_ne _ hne]; exact hrec, htype, hh⟩
  · -- reflectB
    intro id' rec hm hh
    by_cases hne : id' = r.id
    · rw [hne, hm_self] at hm
      obtain rfl : r' = rec := Option.some.inj hm
      simp [hr'] at hh
    · rw [hm_ne _ hne] at hm
      obtain ⟨ids, hsm₀, hmem⟩ := hI.reflectB _ _ hm hh
      by_cases ht : rec.serviceType = t₀
      · rw [ht] at hsm₀
        rw [hids₀] at hsm₀
        obtain rfl : ids₀ = ids := Option.some.inj hsm₀
        refine ⟨ids₀.erase r.id, by rw [ht, hsm_self], ?_⟩
        exact (List.mem_erase_of_ne hne).mpr hmem
      · exact ⟨ids, by rw [hsm_ne _ ht]; exact hsm₀, hmem⟩
  · -- idsOk
    intro id' rec hm
    by_cases hne : id' = r.id
    · rw [hne, hm_self] at hm
      obtain rfl : r' = rec := Option.some.inj hm
      rw [hne]
    · rw [hm_ne _ hne] at hm
      exact hI.idsOk _ _ hm
  · -- typesOk
    intro id' rec hm
    have hSome : ∀ τ, (listGet σ.reg.serviceMap τ).isSome →
        (listGet (onHealthCheckFailed σ.reg r).serviceMap τ).isSome := by
      intro τ hτ
      rw [hunfold]
      show (listGet (smUpdate σ.reg.serviceMap t₀ (fun ids => ids.erase r.id))
        τ).isSome
      rw [isSome_smUpdate]
      exact hτ
    by_cases hne : id' = r.id
    · rw [hne, hm_self] at hm
      obtain rfl : r' = rec := Option.some.inj hm
      refine hSome _ ?_
      show (listGet σ.reg.serviceMap t₀).isSome
      rw [hids₀]
      rfl
    · rw [hm_ne _ hne] at hm
      exact hSome _ (hI.typesOk _ _ hm)
  · -- removedTypes
    intro r'' hr''
    have := hI.removedTypes _ (List.mem_of_mem_erase hr'')
    rw [hunfold]
    show (listGet (smUpdate σ.reg.serviceMap t₀ (fun ids => ids.erase r.id))
      r''.serviceType).isSome
    rw [isSome_smUpdate]
    exact this
  · -- removedAbsent
    intro r'' hr''
    obtain ⟨hner, hmem⟩ := (List.Nodup.mem_erase_iff (removed_nodup hI)).mp hr''
    have hnone := hI.removedAbsent _ hmem
    have hne : r''.id ≠ r.id := by
      intro he
      exact hner (nodup_map_mem_inj hI.removedIdsNodup hmem hr he)
    rw [hm_ne _ hne]
    exact hnone
  · -- removedIdsNodup
    exact List.Nodup.sublist (List.Sublist.map _ (List.erase_sublist _ _))
      hI.removedIdsNodup
  · -- mapKeysNodup
    rw [hunfold]
    show (keysOf (listSet σ.reg.instanceMap r.id r')).Nodup
    rw [listSet_of_absent _ _ habs, keysOf_append]
    refine List.Nodup.append hI.mapKeysNodup (by simp [keysOf]) ?_
    intro a ha hb
    simp [keysOf] at hb
    subst hb
    exact ((listGet_eq_none_iff _ _).mp habs) ha
  · -- setsNodup
    intro t ids hsm
    by_cases ht : t = t₀
    · subst ht
      rw [hsm_self] at hsm
      cases hsm
      exact List.Nodup.erase _ hids₀nodup
    · rw [hsm_ne _ ht] at hsm
      exact hI.setsNodup _ _ hsm

theorem inv_probePassRemoved (σ : Sys) (r : Instance)
    (hI : Inv σ) (hr : r ∈ σ.removed) :
    Inv ⟨onHealthCheckPassed σ.reg r, σ.removed.erase r⟩ := by
  by_cases hguard : r.healthy = true
  · have hreg : onHealthCheckPassed σ.reg r = σ.reg := by
      unfold onHealthCheckPassed
      rw [if_pos hguard]
    rw [hreg]
    exact inv_erase_removed σ r hI
  have hunhealthy : r.healthy = false := by
    cases hc : r.healthy
    · rfl
    · exact absurd hc hguard
  have habs : listGet σ.reg.instanceMap r.id = none := hI.removedAbsent _ hr
  set t₀ := r.serviceType with ht₀
  obtain ⟨ids₀, hids₀⟩ := Option.isSome_iff_exists.mp (hI.removedTypes _ hr)
  have hids₀nodup := hI.setsNodup _ _ hids₀
  set r' : Instance := { r with healthy := true } with hr'
  have hunfold : onHealthCheckPassed σ.reg r =
      { serviceMap := smUpdate σ.reg.serviceMap t₀ (fun ids => setAdd ids r.id),
        instanceMap := listSet σ.reg.instanceMap r.id r' } := by
    unfold onHealthCheckPassed
    rw [if_neg hguard]
  have hsm_self : listGet (onHealthCheckPassed σ.reg r).serviceMap t₀ =
      some (setAdd ids₀ r.id) := by
    rw [hunfold]
    show listGet (smUpdate σ.reg.serviceMap t₀ (fun ids => setAdd ids r.id)) t₀ = _
    rw [listGet_smUpdate_self, hids₀]
    rfl
  have hsm_ne : ∀ t, t ≠ t₀ →
      listGet (onHealthCheckPassed σ.reg r).serviceMap t =
        listGet σ.reg.serviceMap t := by
    intro t ht
    rw [hunfold]
    exact listGet_smUpdate_ne _ _ ht
  have hm_self : listGet (onHealthCheckPassed σ.reg r).instanceMap r.id =
      some r' := by
    rw [hunfold]
    exact listGet_listSet_self _ _ _
  have hm_ne : ∀ id', id' ≠ r.id →
      listGet (onHealthCheckPassed σ.reg r).instanceMap id' =
        listGet σ.reg.instanceMap id' := by
    intro id' hid'
    rw [hunfold]
    exact listGet_listSet_ne _ _ hid'
  constructor
  · -- indexA
    intro t ids id' hsm hid'
    by_cases ht : t = t₀
    · subst ht
      rw [hsm_self] at hsm
      cases hsm
      by_cases hne : id' = r.id
      · refine ⟨r', by rw [hne]; exact hm_self, rfl, rfl⟩
      · have hmem : id' ∈ ids₀ := by
          rcases mem_setAdd.mp hid' with hmem | he
          · exact hmem
          · exact absurd he hne
        obtain ⟨rec, hrec, htype, hh⟩ := hI.indexA _ _ _ hids₀ hmem
        exact ⟨rec, by rw [hm_ne _ hne]; exact hrec, htype, hh⟩
    · rw [hsm_ne _ ht] at hsm
      obtain ⟨rec, hrec, htype, hh⟩ := hI.indexA _ _ _ hsm hid'
      have hne : id' ≠ r.id := ne_of_some_none hrec habs
      exact ⟨rec, by rw [hm_ne _ hne]; exact hrec, htype, hh⟩
  · -- reflectB
    intro id' rec hm hh
    by_cases hne : id' = r.id
    · rw [hne, hm_self] at hm
      obtain rfl : r' = rec := Option.some.inj hm
      refine ⟨setAdd ids₀ r.id, ?_, ?_⟩
      · show listGet (onHealthCheckPassed σ.reg r).serviceMap r.serviceType =
          some (setAdd ids₀ r.id)
        exact hsm_self
      · rw [hne]
        exact mem_setAdd.mpr (Or.inr rfl)
    · rw [hm_ne _ hne] at hm
      obtain ⟨ids, hsm₀, hmem⟩ := hI.reflectB _ _ hm hh
      by_cases ht : rec.serviceType = t₀
      · rw [ht] at hsm₀
        rw [hids₀] at hsm₀
        obtain rfl : ids₀ = ids := Option.some.inj hsm₀
        refine ⟨setAdd ids₀ r.id, by rw [ht, hsm_self], ?_⟩
        exact mem_setAdd.mpr (Or.inl hmem)
      · exact ⟨ids, by rw [hsm_ne _ ht]; exact hsm₀, hmem⟩
  · -- idsOk
    intro id' rec hm
    by_cases hne : id' = r.id
    · rw [hne, hm_self] at hm
      obtain rfl : r' = rec := Option.some.inj hm
      rw [hne]
    · rw [hm_ne _ hne] at hm
      exact hI.idsOk _ _ hm
  · -- typesOk
    intro id' rec hm
    have hSome : ∀ τ, (listGet σ.reg.serviceMap τ).isSome →
        (listGet (onHealthCheckPassed σ.reg r).serviceMap τ).isSome := by
      intro τ hτ
      rw [hunfold]
      show (listGet (smUpdate σ.reg.serviceMap t₀ (fun ids => setAdd ids r.id))
        τ).isSome
      rw [isSome_smUpdate]
      exact hτ
    by_cases hne : id' = r.id
    · rw [hne, hm_self] at hm
      obtain rfl : r' = rec := Option.some.inj hm
      refine hSome _ ?_
      show (listGet σ.reg.serviceMap t₀).isSome
      rw [hids₀]
      rfl
    · rw [hm_ne _ hne] at hm
      exact hSome _ (hI.typesOk _ _ hm)
  · -- removedTypes
    intro r'' hr''
    have := hI.removedTypes _ (List.mem_of_mem_erase hr'')
    rw [hunfold]
    show (listGet (smUpdate σ.reg.serviceMap t₀ (fun ids => setAdd ids r.id))
      r''.serviceType).isSome
    rw [isSome_smUpdate]
    exact this
  · -- removedAbsent
    intro r'' hr''
    obtain ⟨hner, hmem⟩ := (List.Nodup.mem_erase_iff (removed_nodup hI)).mp hr''
    have hnone := hI.removedAbsent _ hmem
    have hne : r''.id ≠ r.id := by
      intro he
      exact hner (nodup_map_mem_inj hI.removedIdsNodup hmem hr he)
    rw [hm_ne _ hne]
    exact hnone
  · -- removedIdsNodup
    exact List.Nodup.sublist (List.Sublist.map _ (List.erase_sublist _ _))
      hI.removedIdsNodup
  · -- mapKeysNodup
    rw [hunfold]
    show (keysOf (listSet σ.reg.instanceMap r.id r')).Nodup
    rw [listSet_of_absent _ _ habs, keysOf_append]
    refine List.Nodup.append hI.mapKeysNodup (by simp [keysOf]) ?_
    intro a ha hb
    simp [keysOf] at hb
    subst hb
    exact ((listGet_eq_none_iff _ _).mp habs) ha
  · -- setsNodup
    intro t ids hsm
    by_cases ht : t = t₀
    · subst ht
      rw [hsm_self] at hsm
      cases hsm
      exact setAdd_nodup hids₀nodup _
    · rw [hsm_ne _ ht] at hsm
      exact hI.setsNodup _ _ hsm

/-- One step preserves the inductive invariant. -/
theorem inv_step {σ σ' : Sys} (hI : Inv σ) (hs : Step σ σ') : Inv σ' := by
  cases hs with
  | register req id now hfresh hrem => exact inv_register σ req id now hI hfresh hrem
  | unregisterPresent id inst h => exact inv_unregisterPresent σ id inst hI h
  | unregisterAbsent id h => exact hI
  | probeFailPresent id inst h => exact inv_probeFailPresent σ id inst hI h
  | probePassPresent id inst h => exact inv_probePassPresent σ id inst hI h
  | probeFailRemoved inst h => exact inv_probeFailRemoved σ inst hI h
  | probePassRemoved inst h => exact inv_probePassRemoved σ inst hI h

/-- Every reachable state satisfies the inductive invariant. -/
theorem inv_reachable {σ : Sys} (h : Reachable σ) : Inv σ := by
  induction h with
  | init => exact inv_init
  | step _ hs ih => exact inv_step ih hs

/-! ## Claim C1: mutual consistency of the two indexes -/

/-- Spec invariant 1: every id listed under type `t` resolves to a record of
type `t` with `healthy = true`. -/
def IndexConsistent (s : RegistryState) : Prop :=
  ∀ t ids id, listGet s.serviceMap t = some ids → id ∈ ids →
    ∃ rec, listGet s.instanceMap id = some rec ∧
      rec.serviceType = t ∧ rec.healthy = true

/-- Spec invariant 2: every healthy record is listed under its own type. -/
def HealthyReflected (s : RegistryState) : Prop :=
  ∀ id rec, listGet s.instanceMap id = some rec → rec.healthy = true →
    ∃ ids, listGet s.serviceMap rec.serviceType = some ids ∧ id ∈ ids

/-- Spec invariant 5: no unhealthy record appears in any `ServiceMap` set. -/
def NoUnhealthyListed (s : RegistryState) : Prop :=
  ∀ t ids id rec, listGet s.serviceMap t = some ids → id ∈ ids →
    listGet s.instanceMap id = some rec → rec.healthy = true

/-- C1: for every registry state reachable by finite sequences of register,
unregister, healthCheckPassed and healthCheckFailed handler applications from
the empty registry, the two indexes are mutually consistent: every id in
`ServiceMap[t]` resolves in `InstanceMap` to a record of type `t` with
`healthy = true`; every healthy record's id is in `ServiceMap` under its
type; and no unhealthy record is listed in any `ServiceMap` set. -/
theorem c1_dual_index_invariants (σ : Sys) (h : Reachable σ) :
    IndexConsistent σ.reg ∧ HealthyReflected σ.reg ∧ NoUnhealthyListed σ.reg := by
  have hI := inv_reachable h
  refine ⟨hI.indexA, hI.reflectB, ?_⟩
  intro t ids id rec hsm hid hm
  obtain ⟨rec', hrec', _, hh⟩ := hI.indexA _ _ _ hsm hid
  rw [hm] at hrec'
  obtain rfl : rec = rec' := Option.some.inj hrec'
  exact hh

def demoReq : RegisterRequest := ⟨"users", "localhost", "3000", []⟩

def demoSys : Sys := ⟨registerCore sysInit.reg demoReq "a" 5, sysInit.removed⟩

theorem c1_dual_index_invariants_witness :
    Reachable demoSys ∧ (IndexConsistent demoSys.reg ∧
      HealthyReflected demoSys.reg ∧ NoUnhealthyListed demoSys.reg) := by
  have hreach : Reachable demoSys :=
    Reachable.step Reachable.init
      (Step.register sysInit demoReq "a" 5 (by decide) (by simp [sysInit]))
  exact ⟨hreach, c1_dual_index_invariants demoSys hreach⟩

/-! ## Claim C4: health listeners on an absent id -/

def c4req : RegisterRequest := ⟨"users", "localhost", "3000", []⟩

def c4inst : Instance := mkInstance c4req "a" 0

/-- The registry state after `register` then `unregister` of the same
instance: `serviceMap` still holds the (now empty) `"users"` set,
`instanceMap` is empty, and the snapshot object `c4inst` is dangling. -/
def c4state : RegistryState := unregister (registerCore emptyState c4req "a" 0) "a"

/-- C4 is false as stated: applying the `healthCheckFailed` listener to a
snapshot record whose id is absent from `InstanceMap` (here: an instance
unregistered after registration, probe applied to the stale snapshot object)
is not a no-op — the listener's final `instanceMap.set(instance.id, instance)`
re-inserts the record, now marked unhealthy. -/
theorem c4_counterexample :
    listGet c4state.instanceMap c4inst.id = none ∧
    onHealthCheckFailed c4state c4inst ≠ c4state ∧
    listGet (onHealthCheckFailed c4state c4inst).instanceMap c4inst.id =
      some { c4inst with healthy := false } := by decide

/-- C4 amended: for an id absent from `InstanceMap`, the health listeners are
no-ops only when the snapshot record's `healthy` flag already matches the
direction of the event (`healthy = false` for `healthCheckFailed`,
`healthy = true` for `healthCheckPassed`); when the flag differs, the
listener flips it and re-inserts the record at the end of `InstanceMap`. -/
theorem c4_amended (s : RegistryState) (inst : Instance)
    (habs : listGet s.instanceMap inst.id = none) :
    (inst.healthy = false → onHealthCheckFailed s inst = s) ∧
    (inst.healthy = true → onHealthCheckPassed s inst = s) ∧
    (inst.healthy = true → (onHealthCheckFailed s inst).instanceMap =
      s.instanceMap ++ [(inst.id, { inst with healthy := false })]) ∧
    (inst.healthy = false → (onHealthCheckPassed s inst).instanceMap =
      s.instanceMap ++ [(inst.id, { inst with healthy := true })]) := by
  refine ⟨?_, ?_, ?_, ?_⟩
  · intro hh
    unfold onHealthCheckFailed
    rw [if_pos hh]
  · intro hh
    unfold onHealthCheckPassed
    rw [if_pos hh]
  · intro hh
    unfold onHealthCheckFailed
    rw [if_neg (by simp [hh])]
    show listSet s.instanceMap inst.id { inst with healthy := false } = _
    exact listSet_of_absent _ _ habs
  · intro hh
    unfold onHealthCheckPassed
    rw [if_neg (by simp [hh])]
    show listSet s.instanceMap inst.id { inst with healthy := true } = _
    exact listSet_of_absent _ _ habs

theorem c4_amended_witness :
    listGet c4state.instanceMap c4inst.id = none ∧
    ((c4inst.healthy = false → onHealthCheckFailed c4state c4inst = c4state) ∧
     (c4inst.healthy = true → onHealthCheckPassed c4state c4inst = c4state) ∧
     (c4inst.healthy = true → (onHealthCheckFailed c4state c4inst).instanceMap =
       c4state.instanceMap ++ [(c4inst.id, { c4inst with healthy := false })]) ∧
     (c4inst.healthy = false → (onHealthCheckPassed c4state c4inst).instanceMap =
       c4state.instanceMap ++ [(c4inst.id, { c4inst with healthy := true })])) :=
  ⟨by decide, c4_amended c4state c4inst (by decide)⟩

/-! ## Claim C5: unregister idempotence -/

theorem unregister_absent_eq (s : RegistryState) (id : String)
    (h : listGet s.instanceMap id = none) : unregister s id = s := by
  unfold unregister
  rw [h]

/-- C5: `unregister(id); unregister(id)` leaves the registry in the same
state as one call, and `unregister` of an id absent from `InstanceMap`
changes nothing (and raises no error: it is a total function into states).
The hypotheses state that `instanceMap` is a well-formed JS `Map` (keys are
unique and each record is stored under its own id), which holds in every
state the registry constructs. -/
theorem c5_unregister_idempotent (s : RegistryState) (id : String)
    (hkeys : (keysOf s.instanceMap).Nodup)
    (hids : ∀ id' rec, listGet s.instanceMap id' = some rec → rec.id = id') :
    unregister (unregister s id) id = unregister s id ∧
    (listGet s.instanceMap id = none → unregister s id = s) := by
  constructor
  · cases h : listGet s.instanceMap id with
    | none =>
      rw [unregister_absent_eq s id h, unregister_absent_eq s id h]
    | some inst =>
      have hid : inst.id = id := hids _ _ h
      refine unregister_absent_eq _ _ ?_
      unfold unregister
      rw [h]
      show listGet (listDelete s.instanceMap inst.id) id = none
      rw [hid]
      exact listGet_listDelete_self _ _ hkeys
  · exact unregister_absent_eq s id

def c5state : RegistryState := registerCore emptyState demoReq "b" 3

theorem c5_unregister_idempotent_witness :
    (keysOf c5state.instanceMap).Nodup ∧
    (unregister (unregister c5state "b") "b" = unregister c5state "b" ∧
     (listGet c5state.instanceMap "b" = none → unregister c5state "b" = c5state)) := by
  refine ⟨by decide, c5_unregister_idempotent c5state "b" (by decide) ?_⟩
  intro id' rec hm
  have hstate : c5state.instanceMap = [("b", mkInstance demoReq "b" 3)] := by decide
  rw [hstate] at hm
  simp only [listGet] at hm
  by_cases h : "b" = id'
  · rw [if_pos h] at hm
    obtain rfl : mkInstance demoReq "b" 3 = rec := Option.some.inj hm
    exact h
  · rw [if_neg h] at hm
    exact Option.noConfusion hm

/-! ## Claim C6: health-toggle idempotence on a present id -/

/-- The `healthCheckFailed` listener applied to the snapshot object of a
currently registered id: for a present id the snapshot object is exactly the
record stored in `instanceMap`. Absent ids leave the state unchanged here;
their (different) behaviour is the subject of C4. -/
def healthCheckFailedOn (s : RegistryState) (id : String) : RegistryState :=
  match listGet s.instanceMap id with
  | some inst => onHealthCheckFailed s inst
  | none => s

/-- The `healthCheckPassed` listener applied to the record of a registered id. -/
def healthCheckPassedOn (s : RegistryState) (id : String) : RegistryState :=
  match listGet s.instanceMap id with
  | some inst => onHealthCheckPassed s inst
  | none => s

/-- C6: for an id present in `InstanceMap`, repeated `healthCheckFailed`
(resp. `healthCheckPassed`) is a no-op after the first application — the
second application changes neither the record (including `lastUpdated`,
which the listeners never touch) nor either index, because the listeners
are guarded on an actual change of the `healthy` flag. -/
theorem c6_health_toggle_idempotent (s : RegistryState) (id : String)
    (inst : Instance) (h : listGet s.instanceMap id = some inst)
    (hid : inst.id = id) :
    healthCheckFailedOn (healthCheckFailedOn s id) id = healthCheckFailedOn s id ∧
    healthCheckPassedOn (healthCheckPassedOn s id) id = healthCheckPassedOn s id := by
  constructor
  · cases hh : inst.healthy with
    | false =>
      have h1 : healthCheckFailedOn s id = s := by
        unfold healthCheckFailedOn
        rw [h]
        show onHealthCheckFailed s inst = s
        unfold onHealthCheckFailed
        rw [if_pos hh]
      rw [h1, h1]
    | true =>
      have h1 : healthCheckFailedOn s id = onHealthCheckFailed s inst := by
        unfold healthCheckFailedOn
        rw [h]
      have hunfold : onHealthCheckFailed s inst =
          { serviceMap := smUpdate s.serviceMap inst.serviceType
              (fun ids => ids.erase inst.id),
            instanceMap := listSet s.instanceMap inst.id
              { inst with healthy := false } } := by
        unfold onHealthCheckFailed
        rw [if_neg (by simp [hh])]
      have hlook : listGet (onHealthCheckFailed s inst).instanceMap id =
          some { inst with healthy := false } := by
        rw [hunfold]
        show listGet (listSet s.instanceMap inst.id { inst with healthy := false })
          id = _
        rw [hid]
        exact listGet_listSet_self _ _ _
      rw [h1]
      unfold healthCheckFailedOn
      rw [hlook]
      show onHealthCheckFailed _ { inst with healthy := false } = _
      unfold onHealthCheckFailed
      rw [if_pos rfl]
  · cases hh : inst.healthy with
    | true =>
      have h1 : healthCheckPassedOn s id = s := by
        unfold healthCheckPassedOn
        rw [h]
        show onHealthCheckPassed s inst = s
        unfold onHealthCheckPassed
        rw [if_pos hh]
      rw [h1, h1]
    | false =>
      have h1 : healthCheckPassedOn s id = onHealthCheckPassed s inst := by
        unfold healthCheckPassedOn
        rw [h]
      have hunfold : onHealthCheckPassed s inst =
          { serviceMap := smUpdate s.serviceMap inst.serviceType
              (fun ids => setAdd ids inst.id),
            instanceMap := listSet s.instanceMap inst.id
              { inst with healthy := true } } := by
        unfold onHealthCheckPassed
        rw [if_neg (by simp [hh])]
      have hlook : listGet (onHealthCheckPassed s inst).instanceMap id =
          some { inst with healthy := true } := by
        rw [hunfold]
        show listGet (listSet s.instanceMap inst.id { inst with healthy := true })
          id = _
        rw [hid]
        exact listGet_listSet_self _ _ _
      rw [h1]
      unfold healthCheckPassedOn
      rw [hlook]
      show onHealthCheckPassed _ { inst with healthy := true } = _
      unfold onHealthCheckPassed
      rw [if_pos rfl]

theorem c6_health_toggle_idempotent_witness :
    listGet c5state.instanceMap "b" = some (mkInstance demoReq "b" 3) ∧
    (healthCheckFailedOn (healthCheckFailedOn c5state "b") "b" =
       healthCheckFailedOn c5state "b" ∧
     healthCheckPassedOn (healthCheckPassedOn c5state "b") "b" =
       healthCheckPassedOn c5state "b") :=
  ⟨by decide,
   c6_health_toggle_idempotent c5state "b" (mkInstance demoReq "b" 3)
     (by decide) (by decide)⟩

/-! ## Claim C10: ServiceMap keys are never removed -/

theorem step_serviceMap_keys_mono {σ σ' : Sys} (hs : Step σ σ') :
    (∀ t, (listGet σ.reg.serviceMap t).isSome →
      (listGet σ'.reg.serviceMap t).isSome) ∧
    (keysOf σ.reg.serviceMap).length ≤ (keysOf σ'.reg.serviceMap).length := by
  cases hs with
  | register req id now hfresh hrem =>
    constructor
    · intro t ht
      show (listGet (smUpdate (smEnsure σ.reg.serviceMap req.serviceType)
        req.serviceType (fun ids => setAdd ids (mkInstance req id now).id))
        t).isSome
      rw [isSome_smUpdate]
      by_cases he : t = req.serviceType
      · subst he
        rw [listGet_smEnsure_self]
        rfl
      · rw [listGet_smEnsure_ne _ he]
        exact ht
    · show _ ≤ (keysOf (smUpdate (smEnsure σ.reg.serviceMap req.serviceType)
        req.serviceType (fun ids => setAdd ids (mkInstance req id now).id))).length
      rw [keysOf_smUpdate]
      unfold smEnsure
      by_cases hp : (listGet σ.reg.serviceMap req.serviceType).isSome
      · rw [if_pos hp]
      · rw [if_neg hp, keysOf_append]
        simp
  | unregisterPresent id inst h =>
    constructor
    · intro t ht
      show (listGet (smUpdate σ.reg.serviceMap inst.serviceType
        (fun ids => ids.erase inst.id)) t).isSome
      rw [isSome_smUpdate]
      exact ht
    · show _ ≤ (keysOf (smUpdate σ.reg.serviceMap inst.serviceType
        (fun ids => ids.erase inst.id))).length
      rw [keysOf_smUpdate]
  | unregisterAbsent id h => exact ⟨fun _ ht => ht, le_refl _⟩
  | probeFailPresent id inst h =>
    constructor
    · intro t ht
      unfold onHealthCheckFailed
      by_cases hguard : inst.healthy = false
      · rw [if_pos hguard]
        exact ht
      · rw [if_neg hguard]
        show (listGet (smUpdate σ.reg.serviceMap inst.serviceType
          (fun ids => ids.erase inst.id)) t).isSome
        rw [isSome_smUpdate]
        exact ht
    · unfold onHealthCheckFailed
      by_cases hguard : inst.healthy = false
      · rw [if_pos hguard]
      · rw [if_neg hguard]
        show _ ≤ (keysOf (smUpdate σ.reg.serviceMap inst.serviceType
          (fun ids => ids.erase inst.id))).length
        rw [keysOf_smUpdate]
  | probePassPresent id inst h =>
    constructor
    · intro t ht
      unfold onHealthCheckPassed
      by_cases hguard : inst.healthy = true
      · rw [if_pos hguard]
        exact ht
      · rw [if_neg hguard]
        show (listGet (smUpdate σ.reg.serviceMap inst.serviceType
          (fun ids => setAdd ids inst.id)) t).isSome
        rw [isSome_smUpdate]
        exact ht
    · unfold onHealthCheckPassed
      by_cases hguard : inst.healthy = true
      · rw [if_pos hguard]
      · rw [if_neg hguard]
        show _ ≤ (keysOf (smUpdate σ.reg.serviceMap inst.serviceType
          (fun ids => setAdd ids inst.id))).length
        rw [keysOf_smUpdate]
  | probeFailRemoved inst h =>
    constructor
    · intro t ht
      unfold onHealthCheckFailed
      by_cases hguard : inst.healthy = false
      · rw [if_pos hguard]
        exact ht
      · rw [if_neg hguard]
        show (listGet (smUpdate σ.reg.serviceMap inst.serviceType
          (fun ids => ids.erase inst.id)) t).isSome
        rw [isSome_smUpdate]
        exact ht
    · unfold onHealthCheckFailed
      by_cases hguard : inst.healthy = false
      · rw [if_pos hguard]
      · rw [if_neg hguard]
        show _ ≤ (keysOf (smUpdate σ.reg.serviceMap inst.serviceType
          (fun ids => ids.erase inst.id))).length
        rw [keysOf_smUpdate]
  | probePassRemoved inst h =>
    constructor
    · intro t ht
      unfold onHealthCheckPassed
      by_cases hguard : inst.healthy = true
      · rw [if_pos hguard]
        exact ht
      · rw [if_neg hguard]
        show (listGet (smUpdate σ.reg.serviceMap inst.serviceType
          (fun ids => setAdd ids inst.id)) t).isSome
        rw [isSome_smUpdate]
        exact ht
    · unfold onHealthCheckPassed
      by_cases hguard : inst.healthy = true
      · rw [if_pos hguard]
      · rw [if_neg hguard]
        show _ ≤ (keysOf (smUpdate σ.reg.serviceMap inst.serviceType
          (fun ids => setAdd ids inst.id))).length
        rw [keysOf_smUpdate]

/-- C10: over every sequence of register, unregister, healthCheckPassed and
healthCheckFailed handler applications (no dispose), `ServiceMap` keys are
never removed: once present, a service-type key stays present, and the
number of keys (`serviceMap.size`, as reported by the admin health endpoint)
is monotonically non-decreasing. -/
theorem c10_serviceMap_keys_monotone (σ σ' : Sys)
    (h : Relation.ReflTransGen Step σ σ') :
    (∀ t, (listGet σ.reg.serviceMap t).isSome →
      (listGet σ'.reg.serviceMap t).isSome) ∧
    (keysOf σ.reg.serviceMap).length ≤ (keysOf σ'.reg.serviceMap).length := by
  induction h with
  | refl => exact ⟨fun _ ht => ht, le_refl _⟩
  | tail _ hs ih =>
    obtain ⟨h1, h2⟩ := step_serviceMap_keys_mono hs
    exact ⟨fun t ht => h1 t (ih.1 t ht), le_trans ih.2 h2⟩

theorem c10_serviceMap_keys_monotone_witness :
    Relation.ReflTransGen Step sysInit demoSys ∧
    ((∀ t, (listGet sysInit.reg.serviceMap t).isSome →
       (listGet demoSys.reg.serviceMap t).isSome) ∧
     (keysOf sysInit.reg.serviceMap).length ≤
       (keysOf demoSys.reg.serviceMap).length) := by
  have h : Relation.ReflTransGen Step sysInit demoSys :=
    Relation.ReflTransGen.single
      (Step.register sysInit demoReq "a" 5 (by decide) (by simp [sysInit]))
  exact ⟨h, c10_serviceMap_keys_monotone sysInit demoSys h⟩

/-! ## Claims C2 and C3: the authenticated registry variant

The repository's tests, HTTP layer (`createApi`) and README exercise a
`ServiceRegistry` variant whose `register(req, regKey)` verifies the shared
registration key and returns `{serviceId, token}`, and which exposes
`validateInstanceAuth(id, token)`.  The implementation file of that variant
is not under `src/` (only its tests and callers are), so its credential
handling is modelled from the spec; the Dual-Index insertion reuses the
`instanceRegistered` listener translated from the source. -/

inductive RegError where
  | Authentication
  | Disposed
deriving DecidableEq, Repr

instance exceptDecEq {ε α : Type} [DecidableEq ε] [DecidableEq α] :
    DecidableEq (Except ε α)
  | Except.ok x, Except.ok y =>
    match decEq x y with
    | isTrue h => isTrue (congrArg Except.ok h)
    | isFalse h => isFalse (fun hc => h (Except.ok.inj hc))
  | Except.error x, Except.error y =>
    match decEq x y with
    | isTrue h => isTrue (congrArg Except.error h)
    | isFalse h => isFalse (fun hc => h (Except.error.inj hc))
  | Except.ok _, Except.error _ => isFalse (fun hc => Except.noConfusion hc)
  | Except.error _, Except.ok _ => isFalse (fun hc => Except.noConfusion hc)

/-- Modelled from the spec: the authenticated registry's state — the Dual
Index of the source plus the per-instance token bindings (§4.2: a token is
bound 1-to-1 to its id; kept in a side map), the configured registration key
and the engine's disposed flag (§4.3 state machine).  The implementation of
this variant is missing from `src/`. -/
structure AuthRegistry where
  core : RegistryState
  tokenMap : List (String × String)
  registrationKey : String
  disposed : Bool
deriving DecidableEq, Repr

/-- Modelled from the spec (§4.3): verify key → mint id and token (the
minted values appear as explicit parameters) → construct the record with
`healthy = true`, `created = lastUpdated = now` → insert via the Dual Index
→ return `(id, token)`.  `Authentication` on key mismatch, `Disposed` on a
stopped engine; the state is unchanged on error. -/
def register (r : AuthRegistry) (req : RegisterRequest) (key : String)
    (id token : String) (now : Nat) :
    AuthRegistry × Except RegError (String × String) :=
  if r.disposed = true then (r, Except.error RegError.Disposed)
  else if key ≠ r.registrationKey then (r, Except.error RegError.Authentication)
  else
    ({ r with core := registerCore r.core req id now,
              tokenMap := listSet r.tokenMap id token },
     Except.ok (id, token))

/-- Modelled from the spec (§4.2): `validateInstanceAuth(id, presented)` is
true iff the record exists and its bound token equals the presented token. -/
def validateInstanceAuth (r : AuthRegistry) (id presented : String) : Bool :=
  match listGet r.core.instanceMap id, listGet r.tokenMap id with
  | some _, some tok => tok == presented
  | _, _ => false

/-- C2: on a running engine, `register(req, key)` with the correct key
returns `(id, token)` such that `getInstanceById id` afterwards is a record
with `serviceType = req.serviceType`, `healthy = true` and
`created = lastUpdated`, and `validateInstanceAuth id token` is true. -/
theorem c2_register_roundtrip (r : AuthRegistry) (req : RegisterRequest)
    (id token : String) (now : Nat) (hrun : r.disposed = false) :
    (register r req r.registrationKey id token now).2 = Except.ok (id, token) ∧
    (∃ rec,
      getInstanceById (register r req r.registrationKey id token now).1.core id =
        some rec ∧
      rec.serviceType = req.serviceType ∧ rec.healthy = true ∧
      rec.created = rec.lastUpdated) ∧
    validateInstanceAuth (register r req r.registrationKey id token now).1
      id token = true := by
  have hreg : register r req r.registrationKey id token now =
      ({ r with core := registerCore r.core req id now,
                tokenMap := listSet r.tokenMap id token },
       Except.ok (id, token)) := by
    unfold register
    rw [hrun]
    simp
  refine ⟨by rw [hreg], ⟨mkInstance req id now, ?_, rfl, rfl, rfl⟩, ?_⟩
  · rw [hreg]
    show listGet (listSet r.core.instanceMap (mkInstance req id now).id
      (mkInstance req id now)) id = _
    exact listGet_listSet_self _ _ _
  · rw [hreg]
    unfold validateInstanceAuth
    have h1 : listGet (registerCore r.core req id now).instanceMap id =
        some (mkInstance req id now) := by
      show listGet (listSet r.core.instanceMap (mkInstance req id now).id
        (mkInstance req id now)) id = _
      exact listGet_listSet_self _ _ _
    have h2 : listGet (listSet r.tokenMap id token) id = some token :=
      listGet_listSet_self _ _ _
    rw [h1, h2]
    simp

def c2registry : AuthRegistry := ⟨emptyState, [], "abc123", false⟩

theorem c2_register_roundtrip_witness :
    c2registry.disposed = false ∧
    ((register c2registry demoReq "abc123" "a" "tok1" 5).2 =
        Except.ok ("a", "tok1") ∧
     (∃ rec,
       getInstanceById
         (register c2registry demoReq "abc123" "a" "tok1" 5).1.core "a" =
           some rec ∧
       rec.serviceType = demoReq.serviceType ∧ rec.healthy = true ∧
       rec.created = rec.lastUpdated) ∧
     validateInstanceAuth (register c2registry demoReq "abc123" "a" "tok1" 5).1
       "a" "tok1" = true) :=
  ⟨by decide, c2_register_roundtrip c2registry demoReq "a" "tok1" 5 (by decide)⟩

/-- C3: on a running engine, `register` presented with any key different
from the configured registration key fails with an `Authentication` error
and leaves the registry state — both indexes and the token map — unchanged. -/
theorem c3_register_wrong_key (r : AuthRegistry) (req : RegisterRequest)
    (key id token : String) (now : Nat)
    (hrun : r.disposed = false) (hkey : key ≠ r.registrationKey) :
    (register r req key id token now).2 = Except.error RegError.Authentication ∧
    (register r req key id token now).1 = r := by
  unfold register
  rw [hrun]
  simp [hkey]

theorem c3_register_wrong_key_witness :
    c2registry.disposed = false ∧ "wrong" ≠ c2registry.registrationKey ∧
    ((register c2registry demoReq "wrong" "a" "tok1" 5).2 =
        Except.error RegError.Authentication ∧
     (register c2registry demoReq "wrong" "a" "tok1" 5).1 = c2registry) :=
  ⟨by decide, by decide,
   c3_register_wrong_key c2registry demoReq "wrong" "a" "tok1" 5
     (by decide) (by decide)⟩

/-! ## Claim C7: the health-cycle batch/chunk decomposition -/

/-- The chunking performed by the nested loops of `processHealthChecks`:
`for (i = 0; i < xs.length; i += k) xs.slice(i, i + k)` produces the
contiguous chunks of size `k` (the final one possibly shorter).  For
`k = 0` the source loop would never terminate; the definition returns `[]`
there and the claim assumes the configured sizes are positive (the defaults
are 100 and 10). -/
def sliceChunks {α : Type} : List α → Nat → List (List α)
  | _, 0 => []
  | [], _ + 1 => []
  | x :: xs, k + 1 =>
    (x :: xs).take (k + 1) :: sliceChunks ((x :: xs).drop (k + 1)) (k + 1)
termination_by l _ => l.length
decreasing_by simp; omega

/-- The full decomposition of one cycle's snapshot: outer batches of
`batchSize`, inner chunks of `maxConcurrent`; the probes of one inner chunk
run concurrently. -/
def cyclePlan (instances : List Instance) (batchSize maxConcurrent : Nat) :
    List (List (List Instance)) :=
  (sliceChunks instances batchSize).map (fun batch => sliceChunks batch maxConcurrent)

theorem sliceChunks_join_aux {α : Type} (k : Nat) (hk : 0 < k) :
    ∀ (n : Nat) (xs : List α), xs.length ≤ n → (sliceChunks xs k).flatten = xs := by
  intro n
  induction n with
  | zero =>
    intro xs h
    have hx : xs = [] := List.eq_nil_of_length_eq_zero (Nat.le_zero.mp h)
    subst hx
    cases k with
    | zero => cases hk
    | succ k' => simp [sliceChunks]
  | succ n ih =>
    intro xs h
    cases xs with
    | nil =>
      cases k with
      | zero => cases hk
      | succ k' => simp [sliceChunks]
    | cons x xs' =>
      cases k with
      | zero => cases hk
      | succ k' =>
        rw [sliceChunks]
        rw [List.flatten_cons]
        have hlen : ((x :: xs').drop (k' + 1)).length ≤ n := by
          simp at h ⊢
          omega
        rw [ih _ hlen]
        exact List.take_append_drop _ _

theorem sliceChunks_join {α : Type} (xs : List α) (k : Nat) (hk : 0 < k) :
    (sliceChunks xs k).flatten = xs :=
  sliceChunks_join_aux k hk xs.length xs (le_refl _)

theorem sliceChunks_length_le_aux {α : Type} (k : Nat) :
    ∀ (n : Nat) (xs : List α), xs.length ≤ n →
      ∀ c ∈ sliceChunks xs k, c.length ≤ k := by
  intro n
  induction n with
  | zero =>
    intro xs h c hc
    have hx : xs = [] := List.eq_nil_of_length_eq_zero (Nat.le_zero.mp h)
    subst hx
    cases k with
    | zero => simp [sliceChunks] at hc
    | succ k' => simp [sliceChunks] at hc
  | succ n ih =>
    intro xs h c hc
    cases xs with
    | nil =>
      cases k with
      | zero => simp [sliceChunks] at hc
      | succ k' => simp [sliceChunks] at hc
    | cons x xs' =>
      cases k with
      | zero => simp [sliceChunks] at hc
      | succ k' =>
        rw [sliceChunks] at hc
        rcases List.mem_cons.mp hc with rfl | hc'
        · rw [List.length_take]
          exact min_le_left _ _
        · have hlen : ((x :: xs').drop (k' + 1)).length ≤ n := by
            simp at h ⊢
            omega
          exact ih _ hlen c hc'

theorem sliceChunks_length_le {α : Type} (xs : List α) (k : Nat) :
    ∀ c ∈ sliceChunks xs k, c.length ≤ k :=
  sliceChunks_length_le_aux k xs.length xs (le_refl _)

theorem join_join_map {α : Type} (f : List α → List (List α))
    (B : List (List α)) (hf : ∀ b ∈ B, (f b).flatten = b) :
    ((B.map f).flatten).flatten = B.flatten := by
  induction B with
  | nil => simp
  | cons b bs ih =>
    rw [List.map_cons, List.flatten_cons, List.flatten_append, List.flatten_cons]
    rw [hf b (List.mem_cons_self b bs)]
    rw [ih (fun b' hb' => hf b' (List.mem_cons_of_mem b hb'))]

/-- C7: for every snapshot, the batch-then-chunk decomposition of
`processHealthChecks` (with positive batch and chunk sizes) flattens back to
exactly the snapshot — every instance is probed exactly once, so a cycle over
`n` instances issues exactly `n` probes — and every concurrently-executed
chunk holds at most `maxConcurrent` instances. -/
theorem c7_cycle_partition (instances : List Instance) (bs mc : Nat)
    (hbs : 0 < bs) (hmc : 0 < mc) :
    ((cyclePlan instances bs mc).flatten).flatten = instances ∧
    (((cyclePlan instances bs mc).flatten).flatten).length = instances.length ∧
    ∀ batch ∈ cyclePlan instances bs mc, ∀ chunk ∈ batch, chunk.length ≤ mc := by
  have hjoin : ((cyclePlan instances bs mc).flatten).flatten = instances := by
    unfold cyclePlan
    rw [join_join_map _ _ (fun b _ => sliceChunks_join b mc hmc)]
    exact sliceChunks_join instances bs hbs
  refine ⟨hjoin, by rw [hjoin], ?_⟩
  intro batch hbatch chunk hchunk
  unfold cyclePlan at hbatch
  obtain ⟨b, _, rfl⟩ := List.mem_map.mp hbatch
  exact sliceChunks_length_le b mc chunk hchunk

/-- Twenty-five registered instances, as in scenario S6. -/
def c7snapshot : List Instance :=
  (List.range 25).map (fun i => mkInstance demoReq (toString i) 0)

theorem c7_cycle_partition_witness :
    0 < 100 ∧ 0 < 10 ∧ c7snapshot.length = 25 ∧
    (((cyclePlan c7snapshot 100 10).flatten).flatten = c7snapshot ∧
     (((cyclePlan c7snapshot 100 10).flatten).flatten).length = c7snapshot.length ∧
     ∀ batch ∈ cyclePlan c7snapshot 100 10, ∀ chunk ∈ batch,
       chunk.length ≤ 10) :=
  ⟨by decide, by decide, by decide,
   c7_cycle_partition c7snapshot 100 10 (by decide) (by decide)⟩

/-! ## Claim C8: probe pass/fail classification -/

/-- The kind of JSON value `res.json()` produced, when the body parses. -/
inductive Json where
  | obj
  | arr
  | str
  | num
  | boolean
  | nul
deriving DecidableEq, Repr

/-- Outcome of `fetch(url, {signal})` plus body handling: either the promise
rejects (network, DNS, TLS failure, or the TTL abort), or a response arrives
with a status and a body whose JSON parse result is `some` kind, or `none`
when `res.json()` throws on a malformed body. -/
inductive FetchResult where
  | response (status : Nat) (body : Option Json)
  | transportError
deriving DecidableEq, Repr

inductive ProbeResult where
  | passed (body : Json)
  | failed
deriving DecidableEq, Repr

/-- `Response.ok`: status in the 2xx range (200–299). -/
def respOk (status : Nat) : Bool := decide (200 ≤ status) && decide (status ≤ 299)

/-- `checkInstanceHealth` of the package.json variant, which wraps the `URL`
constructor in its own try/catch: a URL-construction failure emits
`healthCheckFailed` and returns without touching the network; a transport
rejection, a non-ok status or a body-parse failure emit `healthCheckFailed`;
otherwise `healthCheckPassed` fires with the parsed body.  The function is
total — every branch is caught, no exception escapes to the caller. -/
def checkInstanceHealth (urlConstructs : Bool) (f : FetchResult) : ProbeResult :=
  if urlConstructs = false then ProbeResult.failed
  else
    match f with
    | FetchResult.transportError => ProbeResult.failed
    | FetchResult.response status body =>
      if respOk status = false then ProbeResult.failed
      else
        match body with
        | none => ProbeResult.failed
        | some j => ProbeResult.passed j

/-- C8 is false as stated: the code never checks that the parsed body is a
JSON *object*.  A 200 response whose body parses as a bare JSON number
passes the probe, refuting "passes iff the status is 2xx and the body parses
as a JSON object". -/
theorem c8_counterexample :
    checkInstanceHealth true (FetchResult.response 200 (some Json.num)) =
      ProbeResult.passed Json.num ∧ Json.num ≠ Json.obj := by decide

/-- C8 amended: a probe passes iff the URL constructs, the fetch yields a
response with a 2xx status and the body parses as JSON — any JSON value, not
necessarily an object.  Every other outcome (URL failure — with the fetch
outcome irrelevant, as no request is made —, transport error or timeout,
non-2xx status, malformed body) is a failure, and the probe always returns
one of the two outcomes: no exception propagates. -/
theorem c8_amended (u : Bool) (f : FetchResult) :
    ((∃ j, checkInstanceHealth u f = ProbeResult.passed j) ↔
      (u = true ∧ ∃ st j, f = FetchResult.response st (some j) ∧
        respOk st = true)) ∧
    (checkInstanceHealth u f = ProbeResult.failed ∨
      ∃ j, checkInstanceHealth u f = ProbeResult.passed j) ∧
    (u = false → checkInstanceHealth u f = ProbeResult.failed) := by
  cases u with
  | false => simp [checkInstanceHealth]
  | true =>
    cases f with
    | transportError => simp [checkInstanceHealth]
    | response st body =>
      cases hok : respOk st with
      | false =>
        simp [checkInstanceHealth, hok]
      | true =>
        cases body with
        | none => simp [checkInstanceHealth, hok]
        | some j => simp [checkInstanceHealth, hok]

/-! ## Claim C9: the dispose/init lifecycle of the package.json variant -/

/-- The lifecycle-relevant state of the package.json `ServiceRegistry`: the
Dual Index, the private `disposed` field, and whether the four event
listeners are installed (`init` installs them, `dispose` removes them;
`emit` reaches a listener only while installed). -/
structure Registry2 where
  core : RegistryState
  disposed : Bool
  listeners : Bool
deriving DecidableEq, Repr

/-- `init()`: `if (!this.disposed) return;`, then install the four listeners
(and start health checks).  The method never assigns `disposed`. -/
def init2 (r : Registry2) : Registry2 :=
  if r.disposed = false then r else { r with listeners := true }

/-- `dispose()`: `if (this.disposed) return;`, then stop health checks,
remove all listeners and clear both maps.  The method never assigns
`disposed`. -/
def dispose2 (r : Registry2) : Registry2 :=
  if r.disposed = true then r
  else { r with listeners := false, core := emptyState }

/-- The constructor: class fields initialise `disposed = false` with no
listeners installed, then the constructor body calls `this.init()`. -/
def mkRegistry2 : Registry2 := init2 ⟨emptyState, false, false⟩

/-- `register` of the package.json variant: throws `Disposed` when the flag
is set, otherwise emits `instanceRegistered` — which mutates the Dual Index
only if the listeners are installed — and returns the minted id. -/
def register2 (r : Registry2) (req : RegisterRequest) (id : String)
    (now : Nat) : Except RegError (Registry2 × String) :=
  if r.disposed = true then Except.error RegError.Disposed
  else
    Except.ok
      (if r.listeners = true
        then { r with core := registerCore r.core req id now }
        else r,
       id)

/-- C9 describes intended behaviour the code does not implement: `dispose()`
never sets `disposed = true` (and `init()` never sets it to `false`), so
after `dispose()` the guard in `register` cannot fire — `register` returns
ok instead of throwing `Disposed` — and `init()` (whose
`if (!this.disposed) return` guard therefore always returns) is dead code,
so the four listeners are never installed and `register` inserts nothing
even on a freshly constructed registry. -/
theorem c9_disposed_flag_never_set :
    (dispose2 mkRegistry2).disposed = false ∧
    register2 (dispose2 mkRegistry2) c4req "a" 7 =
      Except.ok (dispose2 mkRegistry2, "a") ∧
    init2 (dispose2 mkRegistry2) = dispose2 mkRegistry2 ∧
    mkRegistry2.listeners = false ∧
    register2 mkRegistry2 c4req "a" 7 = Except.ok (mkRegistry2, "a") ∧
    getInstanceById mkRegistry2.core "a" = none := by decide

end SvcReg
